import Mathlib

/-!
Verification of the data validation / normalization / filtering / aggregation
pipeline of the IND320 Streamlit project.  Python sources embedded:
`src/pages/04_fourth_page.py` (energy production page),
`src/pages/third_page.py` (weather month-range page),
`src/pages/second_page.py` (weather statistics page),
`src/streamlit_app.py` (home page).

Numeric measures are modelled by `ℚ`; Python float division by zero, which
produces NaN or ±inf (never a number), is modelled by an `Option ℚ` that is
`none` exactly when the divisor is zero.  `pd.to_datetime` is an external
library call and is modelled by an arbitrary parse function
`Value → Option DateTime` (`none` = NaT, matching `errors='coerce'`).
-/

namespace Spec2Proof

/-- A field value of a raw MongoDB record: a scalar (string / number / null,
as delivered by `collection.find`) or a sequence (a Python `list`). -/
inductive Value where
  | str (s : String)
  | num (q : ℚ)
  | null
  | seq (xs : List Value)

/-- A raw record: mapping field name → value (an element of `records` in
`load_data`, `04_fourth_page.py` line 40). -/
abbrev RawRecord := List (String × Value)

/-- The fixed column list checked by `is_valid_record`
(`04_fourth_page.py` line 52). -/
def scalarCols : List String :=
  ["startTime", "endTime", "lastUpdatedTime", "priceArea", "productionGroup", "quantityKwh"]

/-- Embeds `is_valid_record` (`04_fourth_page.py` lines 50–55): the record is
invalid iff some column of `scalarCols` is present in the row and holds a
Python `list` value (`isinstance(row[col], list)`). -/
def is_valid_record (row : RawRecord) : Bool :=
  scalarCols.all fun col =>
    match row.lookup col with
    | some (Value.seq _) => false
    | _ => true

/-- A parsed timestamp.  Only the components consumed by the embedded pages
are modelled: the year and the zero-based month (`.dt.month` is
`month.val + 1`). -/
structure DateTime where
  year : Int
  month : Fin 12
deriving DecidableEq

/-- The fixed English month-name table: the values produced by
`df['startTime'].dt.strftime('%B')` (`04_fourth_page.py` line 76), which
also appear literally as `month_names` on lines 91–92. -/
def monthNames : List String :=
  ["January", "February", "March", "April", "May", "June",
   "July", "August", "September", "October", "November", "December"]

/-- A record of the clean dataset produced by `load_data`
(`04_fourth_page.py` lines 66–76): parsed `startTime` (rows whose
`startTime` fails to parse are dropped by `dropna(subset=['startTime'])`),
secondary timestamps kept as `NaT` (`none`) on parse failure, and the
derived `month` / `month_name` columns. -/
structure CleanRecord where
  src : RawRecord
  startTime : DateTime
  endTime : Option DateTime
  lastUpdatedTime : Option DateTime
  month : Nat
  month_name : String

/-- One row of the datetime-conversion step of `load_data`
(`04_fourth_page.py` lines 67–76): `pd.to_datetime(..., errors='coerce')`
on the three timestamp columns, `dropna(subset=['startTime'])`, and the
derived month columns.  A missing field coerces to NaT exactly like an
unparseable one (`(r.lookup c).bind parse = none`). -/
def normalizeRecord (parse : Value → Option DateTime) (r : RawRecord) : Option CleanRecord :=
  match (r.lookup "startTime").bind parse with
  | none => none
  | some dt =>
      some { src := r
             startTime := dt
             endTime := (r.lookup "endTime").bind parse
             lastUpdatedTime := (r.lookup "lastUpdatedTime").bind parse
             month := dt.month.val + 1
             month_name := monthNames.getD dt.month.val "" }

/-- Whether a DataFrame built from `records` has column `c`: the columns of
`pd.DataFrame(records)` are the union of the records' keys. -/
def hasColumn (records : List RawRecord) (c : String) : Bool :=
  records.any fun r => (r.lookup c).isSome

/-- The dropped-row count surfaced by the `st.warning` on
`04_fourth_page.py` lines 62–63: `initial_count - len(df)` after the
validity filter. -/
def droppedCount (records : List RawRecord) : Nat :=
  records.length - (records.filter is_valid_record).length

/-- Embeds `load_data` (`04_fourth_page.py` lines 32–82), with the MongoDB fetch
abstracted into the `records` argument and `pd.to_datetime` into `parse`.
`Except.error` models `st.error` + `st.stop`: the empty-fetch abort on
lines 42–44, and the `except` branch on lines 78–80, reachable only as a
`KeyError` when one of the three timestamp columns is absent from every raw
record (`errors='coerce'` absorbs per-value parse failures). -/
def load_data (parse : Value → Option DateTime) (records : List RawRecord) :
    Except String (List CleanRecord) :=
  if records.isEmpty then
    Except.error "No data found in MongoDB! Please run your notebook to insert data first."
  else if hasColumn records "startTime" && hasColumn records "endTime"
      && hasColumn records "lastUpdatedTime" then
    Except.ok ((records.filter is_valid_record).filterMap (normalizeRecord parse))
  else
    Except.error "Error processing datetime columns"

/-- A concrete parse function used to instantiate the theorems: a finite
table standing in for `pd.to_datetime` on the sample values that appear in
the witnesses. -/
def demoParse : Value → Option DateTime
  | Value.str "2021-01-01T00:00:00" => some ⟨2021, ⟨0, by omega⟩⟩
  | Value.str "2021-02-01T00:00:00" => some ⟨2021, ⟨1, by omega⟩⟩
  | _ => none

/-! ### String ordering

Python compares strings lexicographically by Unicode code point; `lexLe` is
that order on the character lists of Lean strings. -/

/-- Lexicographic comparison of character lists by code point, the order
used by Python `sorted` on strings. -/
def lexLe : List Char → List Char → Bool
  | [], _ => true
  | _ :: _, [] => false
  | a :: as, b :: bs =>
    if a.toNat < b.toNat then true
    else if b.toNat < a.toNat then false
    else lexLe as bs

/-- The relation on strings induced by `lexLe`. -/
def strRel (a b : String) : Prop := lexLe a.data b.data = true

instance : DecidableRel strRel :=
  fun a b => inferInstanceAs (Decidable (lexLe a.data b.data = true))

/-- Python `sorted` on a list of strings. -/
def sortStrings (l : List String) : List String := l.insertionSort strRel

/-! ### Aggregation (`04_fourth_page.py` lines 108–116) -/

/-- The ascending-key index produced by
`area_data.groupby('productionGroup')` (pandas sorts group keys). -/
def groupKeys (rows : List (String × ℚ)) : List String :=
  sortStrings (rows.map Prod.fst).dedup

/-- One group's `['quantityKwh'].sum()`. -/
def groupSum (rows : List (String × ℚ)) (k : String) : ℚ :=
  ((rows.filter fun r => r.1 == k).map Prod.snd).sum

/-- The grouped sums before `sort_values`
(`04_fourth_page.py` lines 110–111): one `(productionGroup,
total_production)` row per distinct key, keys ascending. -/
def production_summary_unsorted (rows : List (String × ℚ)) : List (String × ℚ) :=
  (groupKeys rows).map fun k => (k, groupSum rows k)

/-- Sorted by `total_production` descending, the guarantee of
`sort_values('total_production', ascending=False)`. -/
def SortedDescBySum (l : List (String × ℚ)) : Prop :=
  l.Pairwise fun a b => b.2 ≤ a.2

/-- The contract of `sort_values(..., ascending=False)` with the default
`kind='quicksort'` (`04_fourth_page.py` line 112): the output is some
permutation of the input that is sorted by the sum descending.  The default
sort kind is not stable, so pandas promises nothing more about the order of
ties. -/
def PandasSortValuesDesc (inp out : List (String × ℚ)) : Prop :=
  out.Perm inp ∧ SortedDescBySum out

/-- Equal-sum rows appear in ascending lexical order of their group key. -/
def TiesAscending (l : List (String × ℚ)) : Prop :=
  l.Pairwise fun a b => a.2 = b.2 → lexLe a.1.data b.1.data = true

/-- Embeds `production_summary['total_production'].sum()`
(`04_fourth_page.py` line 115). -/
def totalOf (summary : List (String × ℚ)) : ℚ :=
  (summary.map Prod.snd).sum

/-- Float division as performed by pandas: division by zero yields NaN or
±inf — never a number — modelled as `none`. -/
def pandasDiv (a b : ℚ) : Option ℚ :=
  if b = 0 then none else some (a / b)

/-- The `percentage` column
(`production_summary['total_production'] / total * 100`,
`04_fourth_page.py` line 116). -/
def percentageColumn (summary : List (String × ℚ)) : List (String × Option ℚ) :=
  summary.map fun g => (g.1, (pandasDiv g.2 (totalOf summary)).map (· * 100))

/-! ### Categorical selection (`04_fourth_page.py` lines 89, 169–178) -/

/-- Embeds `sorted(df['productionGroup'].unique())` (`04_fourth_page.py` line 89). -/
def production_groups (vals : List String) : List String :=
  sortStrings vals.dedup

/-- The empty-selection fallback on `04_fourth_page.py` lines 177–178:
`if not selected_groups: selected_groups = [production_groups[0]]`
(`take 1` is `[production_groups[0]]` whenever the group list is
non-empty). -/
def normalize_selection (groups sel : List String) : List String :=
  if sel.isEmpty then groups.take 1 else sel

/-! ### Month keys and labels (`third_page.py` lines 36–88)

A canonical month key is a string `'YYYY-MM'` produced by
`df['time'].dt.strftime('%Y-%m')`; the loop on lines 42–48 splits it at
`'-'` into the year part and the month number.  `MonthKey` holds the two
parts of that split: the year substring and the month number (always
`01`–`12`, since `strftime` zero-pads). -/

/-- The split of a canonical `'YYYY-MM'` month key
(`year, month_num = month_str.split('-')`, `third_page.py` line 44). -/
structure MonthKey where
  year : String
  month : Fin 12
deriving DecidableEq

/-- The abbreviated English month names produced by
`datetime.strptime(month_num, '%m').strftime('%b')`
(`third_page.py` line 45). -/
def monthAbbrevs : List String :=
  ["Jan", "Feb", "Mar", "Apr", "May", "Jun",
   "Jul", "Aug", "Sep", "Oct", "Nov", "Dec"]

/-- Embeds `display_name = f"{month_abbrev} {year}"` (`third_page.py` line 46). -/
def monthDisplay (k : MonthKey) : String :=
  monthAbbrevs.getD k.month.val "" ++ " " ++ k.year

/-- The `month_mapping` dict (`third_page.py` lines 39–47):
display label → canonical key, one entry per month present. -/
def month_mapping (keys : List MonthKey) : List (String × MonthKey) :=
  keys.map fun k => (monthDisplay k, k)

/-- The `month_display_names` list (`third_page.py` lines 40–48). -/
def month_display_names (keys : List MonthKey) : List String :=
  keys.map monthDisplay

/-- Embeds `month_mapping[label]` (`third_page.py` lines 78, 86). -/
def label_to_key (keys : List MonthKey) (label : String) : Option MonthKey :=
  (month_mapping keys).lookup label

/-- The pair branch of the selection resolver (`third_page.py` lines
79–86): both labels are resolved with `list.index`, the display list is
sliced as `month_display_names[start_idx:end_idx + 1]`, and each display in
the slice is mapped back through `month_mapping`.  Python's
`l[a : b]` for `0 ≤ a, b` is `(l.drop a).take (b - a)` with truncated
subtraction, so a slice with `b ≤ a` is empty. -/
def resolve_range (keys : List MonthKey) (startD endD : String) : List MonthKey :=
  let names := month_display_names keys
  let si := names.indexOf startD
  let ei := names.indexOf endD
  ((names.drop si).take (ei + 1 - si)).filterMap (label_to_key keys)

/-! ### Coefficient of variation (`second_page.py` lines 115–125)

`first_month_df[col].std()` is an external pandas computation involving a
square root, so it is abstracted into a `std` argument; the claims about
this code depend only on the zero-mean guard, not on the value of the
standard deviation. -/

/-- Embeds `first_month_df[col].mean()`: sum divided by count. -/
def colMean (xs : List ℚ) : ℚ := xs.sum / xs.length

/-- The `cv_values` dict (`second_page.py` lines 116–121): one entry per
column whose mean is nonzero, holding `(std_val / abs(mean_val)) * 100`;
columns with `mean_val == 0` are skipped. -/
def cv_values (std : List ℚ → ℚ) (cols : List (String × List ℚ)) : List (String × ℚ) :=
  cols.filterMap fun c =>
    if colMean c.2 ≠ 0 then some (c.1, std c.2 / |colMean c.2| * 100) else none

/-- Embeds `most_variable` (`second_page.py` lines 123–125): `None` when
`cv_values` is empty, else `max(cv_values.keys(), key=...)` — Python `max`
keeps the first of several equal maxima, so the fold replaces the best
entry only on a strictly larger value. -/
def most_variable (std : List ℚ → ℚ) (cols : List (String × List ℚ)) :
    Option (String × ℚ) :=
  match cv_values std cols with
  | [] => none
  | e :: rest => some (rest.foldl (fun best x => if best.2 < x.2 then x else best) e)

/-- Sample records used to instantiate the theorems (field values follow
the scenario rows of the data source). -/
def rGood : RawRecord :=
  [("startTime", Value.str "2021-01-01T00:00:00"),
   ("endTime", Value.null), ("lastUpdatedTime", Value.null),
   ("priceArea", Value.str "NO1"), ("productionGroup", Value.str "hydro"),
   ("quantityKwh", Value.num 100)]

/-- A raw record with a sequence value in the declared scalar field
`quantityKwh`. -/
def rBad : RawRecord :=
  [("startTime", Value.str "2021-01-01T00:00:00"),
   ("endTime", Value.null), ("lastUpdatedTime", Value.null),
   ("quantityKwh", Value.seq [Value.num 1])]

/-- The clean record `load_data demoParse [rGood]` produces. -/
def cGood : CleanRecord :=
  { src := rGood, startTime := ⟨2021, ⟨0, by omega⟩⟩, endTime := none
    lastUpdatedTime := none, month := 1, month_name := "January" }

/-- Three consecutive months of 2020, as produced by
`sorted(df['month'].unique())` on a dataset spanning them. -/
def keys3 : List MonthKey :=
  [⟨"2020", ⟨0, by omega⟩⟩, ⟨"2020", ⟨1, by omega⟩⟩, ⟨"2020", ⟨2, by omega⟩⟩]

/-! ## Order lemmas for `lexLe` -/

theorem lexLe_refl (l : List Char) : lexLe l l = true := by
  induction l with
  | nil => rfl
  | cons a as ih => simp [lexLe, ih]

theorem lexLe_total (as bs : List Char) : lexLe as bs = true ∨ lexLe bs as = true := by
  induction as generalizing bs with
  | nil => left; rfl
  | cons a as ih =>
    cases bs with
    | nil => right; rfl
    | cons b bs =>
      rcases Nat.lt_trichotomy a.toNat b.toNat with h | h | h
      · left; simp [lexLe, h]
      · simpa [lexLe, h] using ih bs
      · right; simp [lexLe, h]

theorem lexLe_trans (as : List Char) : ∀ bs cs, lexLe as bs = true → lexLe bs cs = true →
    lexLe as cs = true := by
  induction as with
  | nil => intro bs cs _ _; rfl
  | cons a as ih =>
    intro bs cs h1 h2
    cases bs with
    | nil => simp [lexLe] at h1
    | cons b bs =>
      cases cs with
      | nil => simp [lexLe] at h2
      | cons c cs =>
        rcases Nat.lt_trichotomy a.toNat b.toNat with hab | hab | hab
        · rcases Nat.lt_trichotomy b.toNat c.toNat with hbc | hbc | hbc
          · simp [lexLe, show a.toNat < c.toNat by omega]
          · simp [lexLe, show a.toNat < c.toNat by omega]
          · simp [lexLe, hbc, show ¬ b.toNat < c.toNat by omega] at h2
        · rcases Nat.lt_trichotomy b.toNat c.toNat with hbc | hbc | hbc
          · simp [lexLe, show a.toNat < c.toNat by omega]
          · simp only [lexLe, hab, hbc, if_neg (lt_irrefl _)] at h1 h2 ⊢
            exact ih bs cs h1 h2
          · simp [lexLe, hbc, show ¬ b.toNat < c.toNat by omega] at h2
        · simp [lexLe, hab, show ¬ a.toNat < b.toNat by omega] at h1

instance : IsTrans String strRel :=
  ⟨fun a b c => lexLe_trans a.data b.data c.data⟩

instance : IsTotal String strRel :=
  ⟨fun a b => lexLe_total a.data b.data⟩

/-! ## Sum lemmas for the grouped aggregation -/

theorem length_filter_add_length_not {α : Type} (p : α → Bool) (l : List α) :
    (l.filter p).length + (l.filter fun x => !(p x)).length = l.length := by
  induction l with
  | nil => rfl
  | cons x xs ih => cases hp : p x <;> simp [List.filter_cons, hp] <;> omega

theorem sum_filter_add_sum_filter_not (p : String × ℚ → Bool) (l : List (String × ℚ)) :
    ((l.filter p).map Prod.snd).sum + ((l.filter fun x => !(p x)).map Prod.snd).sum
      = (l.map Prod.snd).sum := by
  induction l with
  | nil => simp
  | cons x xs ih => cases hp : p x <;> simp [List.filter_cons, hp] <;> linarith

theorem sum_map_groupSum (keys : List String) : ∀ rows : List (String × ℚ),
    keys.Nodup → (∀ r ∈ rows, r.1 ∈ keys) →
    (keys.map (groupSum rows)).sum = (rows.map Prod.snd).sum := by
  induction keys with
  | nil =>
    intro rows _ hcov
    have hrows : rows = [] := by
      cases rows with
      | nil => rfl
      | cons r rs => exact absurd (hcov r (by simp)) (by simp)
    simp [hrows]
  | cons k ks ih =>
    intro rows hnd hcov
    have hk_not : k ∉ ks := (List.nodup_cons.mp hnd).1
    have hsplit := sum_filter_add_sum_filter_not (fun r => r.1 == k) rows
    have hcongr : ∀ k₂ ∈ ks, groupSum rows k₂ =
        groupSum (rows.filter fun r => !(r.1 == k)) k₂ := by
      intro k₂ hk₂
      have hne : k₂ ≠ k := by rintro rfl; exact hk_not hk₂
      unfold groupSum
      rw [List.filter_filter]
      congr 1
      congr 1
      apply List.filter_congr
      intro r _
      cases hr : (r.1 == k₂) with
      | false => simp
      | true =>
        have : r.1 = k₂ := by simpa using hr
        simp [this, hne]
    have hcovRest : ∀ r ∈ rows.filter fun r => !(r.1 == k), r.1 ∈ ks := by
      intro r hr
      rw [List.mem_filter] at hr
      have h1 := hcov r hr.1
      have h2 : r.1 ≠ k := by simpa using hr.2
      rcases List.mem_cons.mp h1 with h | h
      · exact absurd h h2
      · exact h
    have ihr := ih (rows.filter fun r => !(r.1 == k)) (List.nodup_cons.mp hnd).2 hcovRest
    rw [List.map_cons, List.sum_cons, List.map_congr_left hcongr, ihr]
    unfold groupSum
    linarith

theorem production_summary_unsorted_total (rows : List (String × ℚ)) :
    totalOf (production_summary_unsorted rows) = (rows.map Prod.snd).sum := by
  unfold totalOf production_summary_unsorted
  rw [List.map_map]
  have heq : (Prod.snd ∘ fun k => (k, groupSum rows k)) = groupSum rows := rfl
  rw [heq]
  have hperm : List.Perm (sortStrings (rows.map Prod.fst).dedup) (rows.map Prod.fst).dedup :=
    List.perm_insertionSort _ _
  apply sum_map_groupSum
  · exact hperm.symm.nodup (List.nodup_dedup _)
  · intro r hr
    have : r.1 ∈ (rows.map Prod.fst).dedup :=
      List.mem_dedup.mpr (List.mem_map_of_mem Prod.fst hr)
    exact (hperm.mem_iff).mpr this

theorem sum_map_div_mul (l : List ℚ) (t : ℚ) :
    (l.map fun x => x / t * 100).sum = l.sum / t * 100 := by
  induction l with
  | nil => simp
  | cons x xs ih =>
    simp only [List.map_cons, List.sum_cons, ih]
    ring

/-! ## Month display labels are collision-free -/

theorem monthAbbrev_data_length : ∀ m : Fin 12, (monthAbbrevs.getD m.val "").data.length = 3 := by
  decide

theorem monthAbbrev_inj : ∀ m₁ m₂ : Fin 12,
    monthAbbrevs.getD m₁.val "" = monthAbbrevs.getD m₂.val "" → m₁ = m₂ := by
  decide

theorem monthDisplay_inj : Function.Injective monthDisplay := by
  intro k₁ k₂ h
  have hdata : (monthAbbrevs.getD k₁.month.val "").data ++ (' ' :: k₁.year.data)
      = (monthAbbrevs.getD k₂.month.val "").data ++ (' ' :: k₂.year.data) := by
    have hd := congrArg String.data h
    simpa [monthDisplay, String.data_append] using hd
  obtain ⟨habbrev, htail⟩ := List.append_inj hdata
    (by rw [monthAbbrev_data_length, monthAbbrev_data_length])
  have hm : k₁.month = k₂.month := monthAbbrev_inj _ _ (String.ext habbrev)
  have hy : k₁.year = k₂.year := String.ext (List.cons_injective htail)
  cases k₁; cases k₂
  simp_all

theorem label_to_key_display (keys : List MonthKey) (hnd : keys.Nodup) :
    ∀ k ∈ keys, label_to_key keys (monthDisplay k) = some k := by
  unfold label_to_key month_mapping
  induction keys with
  | nil => intro k hk; cases hk
  | cons a as ih =>
    intro k hk
    rcases List.mem_cons.mp hk with rfl | hk₂
    · simp [List.lookup]
    · have hne : monthDisplay k ≠ monthDisplay a := by
        intro he
        have : k = a := monthDisplay_inj he
        exact (List.nodup_cons.mp hnd).1 (this ▸ hk₂)
      have hbeq : (monthDisplay k == monthDisplay a) = false := by
        simpa using hne
      simp only [List.map_cons, List.lookup, hbeq]
      exact ih (List.nodup_cons.mp hnd).2 k hk₂

theorem filterMap_label_to_key (keys : List MonthKey) (hnd : keys.Nodup)
    (sub : List MonthKey) (hsub : ∀ k ∈ sub, k ∈ keys) :
    (sub.map monthDisplay).filterMap (label_to_key keys) = sub := by
  induction sub with
  | nil => rfl
  | cons a as ih =>
    rw [List.map_cons, List.filterMap_cons,
      label_to_key_display keys hnd a (hsub a (by simp))]
    rw [ih fun k hk => hsub k (List.mem_cons_of_mem a hk)]

/-! ## Normalization-step lemmas -/

theorem normalizeRecord_eq_none_iff (parse : Value → Option DateTime) (r : RawRecord) :
    normalizeRecord parse r = none ↔ (r.lookup "startTime").bind parse = none := by
  unfold normalizeRecord
  cases hb : (r.lookup "startTime").bind parse <;> simp

theorem normalizeRecord_eq_some (parse : Value → Option DateTime) (r : RawRecord)
    (c : CleanRecord) (h : normalizeRecord parse r = some c) :
    c.src = r ∧
    (r.lookup "startTime").bind parse = some c.startTime ∧
    c.endTime = (r.lookup "endTime").bind parse ∧
    c.lastUpdatedTime = (r.lookup "lastUpdatedTime").bind parse ∧
    c.month = c.startTime.month.val + 1 ∧
    c.month_name = monthNames.getD c.startTime.month.val "" := by
  unfold normalizeRecord at h
  cases hb : (r.lookup "startTime").bind parse with
  | none => rw [hb] at h; exact absurd h (by simp)
  | some dt =>
    rw [hb] at h
    have hc := Option.some_injective _ h
    subst hc
    simp [hb]

theorem load_data_ok (parse : Value → Option DateTime) (records : List RawRecord)
    (ds : List CleanRecord) (h : load_data parse records = Except.ok ds) :
    ds = (records.filter is_valid_record).filterMap (normalizeRecord parse) := by
  unfold load_data at h
  by_cases h1 : records.isEmpty
  · rw [if_pos h1] at h; cases h
  · rw [if_neg h1] at h
    by_cases h2 : (hasColumn records "startTime" && hasColumn records "endTime"
        && hasColumn records "lastUpdatedTime") = true
    · rw [if_pos h2] at h; exact (Except.ok.inj h).symm
    · rw [if_neg h2] at h; cases h

theorem validCol_false_iff (r : RawRecord) (c : String) :
    (match r.lookup c with
     | some (Value.seq _) => false
     | _ => true) = false ↔ ∃ xs, r.lookup c = some (Value.seq xs) := by
  cases hv : r.lookup c with
  | none => simp
  | some v => cases v <;> simp

/-! ## Claim theorems -/

/-- Claim C4: a raw record is rejected by validation iff some declared
scalar field present in the record holds a sequence value — absent fields
never cause rejection — and a dataset with exactly one invalid row out of N
yields N−1 clean records and a surfaced dropped-row count of exactly 1. -/
theorem claim_C4 (r : RawRecord) (rows : List RawRecord)
    (h : (rows.filter fun x => !(is_valid_record x)).length = 1) :
    (is_valid_record r = false ↔ ∃ c ∈ scalarCols, ∃ xs, r.lookup c = some (Value.seq xs)) ∧
    (rows.filter is_valid_record).length = rows.length - 1 ∧
    droppedCount rows = 1 := by
  have hsplit := length_filter_add_length_not is_valid_record rows
  refine ⟨?_, by omega, ?_⟩
  · unfold is_valid_record
    constructor
    · intro hf
      obtain ⟨c, hc, hcf⟩ := List.all_eq_false.mp hf
      exact ⟨c, hc, (validCol_false_iff r c).mp (Bool.not_eq_true _ ▸ hcf)⟩
    · rintro ⟨c, hc, hxs⟩
      exact List.all_eq_false.mpr
        ⟨c, hc, by rw [Bool.not_eq_true]; exact (validCol_false_iff r c).mpr hxs⟩
  · unfold droppedCount
    omega

/-- Claim C4 witness: a concrete dataset of two rows with exactly one bad
row (a sequence in `quantityKwh`). -/
theorem claim_C4_witness :
    (is_valid_record rBad = false ↔
      ∃ c ∈ scalarCols, ∃ xs, rBad.lookup c = some (Value.seq xs)) ∧
    ([rGood, rBad].filter is_valid_record).length = [rGood, rBad].length - 1 ∧
    droppedCount [rGood, rBad] = 1 :=
  claim_C4 rBad [rGood, rBad] (by decide)

/-- Claim C3, corrected: `load_data` aborts with a surfaced error exactly
when the source returns zero raw records, or when one of the three
timestamp columns is absent from every raw record; when raw records exist
but every row is dropped during validation/normalization, it silently
returns an empty dataset (`Except.ok []`), not an error. -/
theorem claim_C3_amended (parse : Value → Option DateTime) (records : List RawRecord) :
    (∃ e, load_data parse records = Except.error e) ↔
      records = [] ∨ ¬(hasColumn records "startTime" = true ∧
        hasColumn records "endTime" = true ∧ hasColumn records "lastUpdatedTime" = true) := by
  unfold load_data
  by_cases h1 : records.isEmpty
  · rw [if_pos h1]
    simp [List.isEmpty_iff.mp h1]
  · rw [if_neg h1]
    by_cases h2 : (hasColumn records "startTime" && hasColumn records "endTime"
        && hasColumn records "lastUpdatedTime") = true
    · rw [if_pos h2]
      simp only [Bool.and_eq_true] at h2
      constructor
      · rintro ⟨e, he⟩; cases he
      · rintro (rfl | hno)
        · exact absurd rfl h1
        · exact absurd ⟨h2.1.1, h2.1.2, h2.2⟩ hno
    · rw [if_neg h2]
      constructor
      · intro _
        right
        rintro ⟨ha, hb, hc⟩
        exact h2 (by rw [ha, hb, hc]; rfl)
      · intro _
        exact ⟨_, rfl⟩

/-- Claim C3 counterexample: one raw record whose `quantityKwh` holds a
sequence — so zero valid rows survive cleaning — yet pipeline construction
returns an empty clean dataset, not the fatal error the claim requires. -/
theorem claim_C3_counterexample :
    load_data demoParse [rBad] = Except.ok [] := by
  rfl

/-- Claim C3 witness: with zero raw records the pipeline does abort. -/
theorem claim_C3_witness : ∃ e, load_data demoParse [] = Except.error e :=
  (claim_C3_amended demoParse []).mpr (Or.inl rfl)

/-- Claim C5: under any parse function, a validated record enters the
clean dataset iff its primary timestamp (`startTime`) parses; retained
records keep unparseable secondary timestamps (`endTime`,
`lastUpdatedTime`) as a null marker, and carry a month number in 1–12 and
the English month name, both derived from the parsed primary timestamp. -/
theorem claim_C5 (parse : Value → Option DateTime) (records : List RawRecord)
    (ds : List CleanRecord) (h : load_data parse records = Except.ok ds) :
    (∀ r ∈ records, is_valid_record r = true →
      ((∃ c ∈ ds, c.src = r) ↔ ((r.lookup "startTime").bind parse).isSome = true)) ∧
    (∀ c ∈ ds,
      (c.src.lookup "startTime").bind parse = some c.startTime ∧
      c.endTime = (c.src.lookup "endTime").bind parse ∧
      c.lastUpdatedTime = (c.src.lookup "lastUpdatedTime").bind parse ∧
      c.month = c.startTime.month.val + 1 ∧
      1 ≤ c.month ∧ c.month ≤ 12 ∧
      c.month_name = monthNames.getD c.startTime.month.val "") := by
  have hds := load_data_ok parse records ds h
  subst hds
  constructor
  · intro r hr hvalid
    constructor
    · rintro ⟨c, hc, hsrc⟩
      rw [List.mem_filterMap] at hc
      obtain ⟨r₂, _, hnorm⟩ := hc
      obtain ⟨hsrc₂, hstart, _⟩ := normalizeRecord_eq_some parse r₂ c hnorm
      rw [← hsrc, hsrc₂, hstart]
      rfl
    · intro hsome
      rcases hn : normalizeRecord parse r with _ | c
      · rw [normalizeRecord_eq_none_iff] at hn
        rw [hn] at hsome
        cases hsome
      · obtain ⟨hsrc₂, _⟩ := normalizeRecord_eq_some parse r c hn
        exact ⟨c, List.mem_filterMap.mpr ⟨r, List.mem_filter.mpr ⟨hr, hvalid⟩, hn⟩, hsrc₂⟩
  · intro c hc
    rw [List.mem_filterMap] at hc
    obtain ⟨r, _, hnorm⟩ := hc
    obtain ⟨hsrc, hstart, hend, hlast, hmonth, hname⟩ :=
      normalizeRecord_eq_some parse r c hnorm
    subst hsrc
    refine ⟨hstart, hend, hlast, hmonth, by omega, ?_, hname⟩
    have := c.startTime.month.isLt
    omega

/-- Claim C5 witness: the sample record parses to January 2021 with null
secondary timestamps. -/
theorem claim_C5_witness : ∃ c ∈ [cGood], c.src = rGood :=
  ((claim_C5 demoParse [rGood] [cGood] rfl).1 rGood (by simp) (by rfl)).mpr (by rfl)

/-- Claim C7: for any dataset with distinct canonical month keys, the
display-label mapping is a bijection over the months present: looking a
key's display label back up returns that key, and no two present keys
share a display label. -/
theorem claim_C7 (keys : List MonthKey) (hnd : keys.Nodup) :
    (∀ k ∈ keys, label_to_key keys (monthDisplay k) = some k) ∧
    (month_display_names keys).Nodup :=
  ⟨label_to_key_display keys hnd, List.Nodup.map monthDisplay_inj hnd⟩

/-- Claim C7 witness: the round trip on the middle month of a concrete
three-month dataset. -/
theorem claim_C7_witness :
    label_to_key keys3 (monthDisplay ⟨"2020", ⟨1, by omega⟩⟩) = some ⟨"2020", ⟨1, by omega⟩⟩ :=
  (claim_C7 keys3 (by decide)).1 ⟨"2020", ⟨1, by omega⟩⟩ (by decide)

/-- Claim C1, corrected: resolving a pair `(start_label, end_label)`
always yields the key-list slice from `start`'s index up to and including
`end`'s index; when `end`'s index is below `start`'s (swapped label order)
that slice is empty — the selection is the span only when the start label
does not come after the end label, and is not symmetric under swapping. -/
theorem claim_C1_amended (keys : List MonthKey) (hnd : keys.Nodup) (sd ed : String) :
    resolve_range keys sd ed =
      (keys.drop ((month_display_names keys).indexOf sd)).take
        ((month_display_names keys).indexOf ed + 1 - (month_display_names keys).indexOf sd) ∧
    ((month_display_names keys).indexOf ed < (month_display_names keys).indexOf sd →
      resolve_range keys sd ed = []) := by
  have hmain : resolve_range keys sd ed =
      (keys.drop ((month_display_names keys).indexOf sd)).take
        ((month_display_names keys).indexOf ed + 1 - (month_display_names keys).indexOf sd) := by
    simp only [resolve_range]
    have hnames : month_display_names keys = keys.map monthDisplay := rfl
    rw [hnames, ← List.map_drop, ← List.map_take]
    apply filterMap_label_to_key keys hnd
    intro k hk
    exact List.mem_of_mem_drop (List.mem_of_mem_take hk)
  refine ⟨hmain, fun hlt => ?_⟩
  rw [hmain, show (month_display_names keys).indexOf ed + 1
    - (month_display_names keys).indexOf sd = 0 by omega]
  simp

/-- Claim C1 counterexample: on a three-month dataset, the pair
(Jan, Mar) selects all three months but the swapped pair (Mar, Jan)
selects nothing — the two selections differ, refuting the claimed range
symmetry. -/
theorem claim_C1_counterexample :
    resolve_range keys3 "Jan 2020" "Mar 2020" = keys3 ∧
    resolve_range keys3 "Mar 2020" "Jan 2020" = [] ∧
    resolve_range keys3 "Jan 2020" "Mar 2020" ≠ resolve_range keys3 "Mar 2020" "Jan 2020" := by
  refine ⟨by decide, by decide, by decide⟩

/-- Claim C1 witness: a forward-ordered pair on the concrete dataset
resolves to the inclusive slice. -/
theorem claim_C1_witness :
    resolve_range keys3 "Jan 2020" "Feb 2020" =
      (keys3.drop ((month_display_names keys3).indexOf "Jan 2020")).take
        ((month_display_names keys3).indexOf "Feb 2020" + 1 -
          (month_display_names keys3).indexOf "Jan 2020") :=
  (claim_C1_amended keys3 (by decide) "Jan 2020" "Feb 2020").1

/-- Claim C2, corrected: for any output of the grouped aggregation, the
percentage column is `group_sum / total * 100` with no zero-total guard,
and the total equals the sum of all row quantities; when that total is
nonzero every percentage is defined and they sum to exactly 100, but when
the total is zero every percentage is an undefined float
(division by zero), not zero. -/
theorem claim_C2_amended (rows out : List (String × ℚ))
    (h : PandasSortValuesDesc (production_summary_unsorted rows) out) :
    ((rows.map Prod.snd).sum ≠ 0 →
      (∀ p ∈ percentageColumn out, p.2.isSome = true) ∧
      ((percentageColumn out).map fun p => p.2.getD 0).sum = 100) ∧
    ((rows.map Prod.snd).sum = 0 →
      ∀ p ∈ percentageColumn out, p.2 = none) := by
  have htot : totalOf out = (rows.map Prod.snd).sum := by
    unfold totalOf
    rw [(h.1.map Prod.snd).sum_eq]
    exact production_summary_unsorted_total rows
  constructor
  · intro ht
    rw [← htot] at ht
    constructor
    · intro p hp
      rw [percentageColumn, List.mem_map] at hp
      obtain ⟨g, _, rfl⟩ := hp
      simp [pandasDiv, ht]
    · rw [percentageColumn, List.map_map]
      have hfun : ((fun p : String × Option ℚ => p.2.getD 0) ∘
          fun g : String × ℚ => (g.1, (pandasDiv g.2 (totalOf out)).map (· * 100)))
          = (fun x : ℚ => x / totalOf out * 100) ∘ Prod.snd := by
        funext g
        simp [pandasDiv, ht]
      rw [hfun, ← List.map_map, sum_map_div_mul]
      rw [show (out.map Prod.snd).sum = totalOf out from rfl, div_self ht]
      norm_num
  · intro ht p hp
    rw [← htot] at ht
    rw [percentageColumn, List.mem_map] at hp
    obtain ⟨g, _, rfl⟩ := hp
    simp [pandasDiv, ht]

/-- Claim C2 counterexample: a dataset whose single group sums to zero —
the total is zero, yet the group's percentage is the undefined marker
(float 0/0, NaN), not the zero the claim requires. -/
theorem claim_C2_counterexample :
    totalOf (production_summary_unsorted [("hydro", 0)]) = 0 ∧
    percentageColumn (production_summary_unsorted [("hydro", 0)]) = [("hydro", none)] := by
  have hk : groupKeys [("hydro", (0 : ℚ))] = ["hydro"] := by decide
  have hb : ((("hydro", (0 : ℚ)).1 == "hydro")) = true := by decide
  have hps : production_summary_unsorted [("hydro", (0 : ℚ))] = [("hydro", 0)] := by
    unfold production_summary_unsorted
    rw [hk]
    norm_num [groupSum, List.filter_cons, List.filter_nil, hb]
  rw [hps]
  norm_num [totalOf, percentageColumn, pandasDiv]

/-- Claim C2 witness: the two-group scenario (hydro 100, wind 50) has
percentages summing to exactly 100. -/
theorem claim_C2_witness :
    ((percentageColumn (production_summary_unsorted [("hydro", 100), ("wind", 50)])).map
      fun p => p.2.getD 0).sum = 100 := by
  have hk : groupKeys [("hydro", (100 : ℚ)), ("wind", 50)] = ["hydro", "wind"] := by decide
  have hb1 : ((("hydro", (100 : ℚ)).1 == "hydro")) = true := by decide
  have hb2 : ((("wind", (50 : ℚ)).1 == "hydro")) = false := by decide
  have hb3 : ((("hydro", (100 : ℚ)).1 == "wind")) = false := by decide
  have hb4 : ((("wind", (50 : ℚ)).1 == "wind")) = true := by decide
  have hs1 : ("wind" : String) ≠ "hydro" := by decide
  have hs2 : ("hydro" : String) ≠ "wind" := by decide
  have hps : production_summary_unsorted [("hydro", (100 : ℚ)), ("wind", 50)]
      = [("hydro", 100), ("wind", 50)] := by
    unfold production_summary_unsorted
    rw [hk]
    norm_num [groupSum, List.filter_cons, List.filter_nil, hb1, hb2, hb3, hb4, hs1, hs2]
  exact ((claim_C2_amended [("hydro", 100), ("wind", 50)] _
    ⟨List.Perm.refl _, by
      rw [hps]
      unfold SortedDescBySum
      norm_num [List.pairwise_cons]⟩).1 (by norm_num)).2

/-- Claim C6, corrected: any output satisfying the sort step's contract is
sorted by group sum descending, preserves the overall total, and assigns
every group its correct sum — but the relative order of equal-sum groups
is not determined by the code (the default quicksort is not stable), so
the ascending-key tiebreak is not guaranteed. -/
theorem claim_C6_amended (rows out : List (String × ℚ))
    (h : PandasSortValuesDesc (production_summary_unsorted rows) out) :
    SortedDescBySum out ∧
    totalOf out = (rows.map Prod.snd).sum ∧
    (∀ p ∈ out, p.2 = groupSum rows p.1) := by
  obtain ⟨hperm, hsort⟩ := h
  refine ⟨hsort, ?_, ?_⟩
  · unfold totalOf
    rw [(hperm.map Prod.snd).sum_eq]
    exact production_summary_unsorted_total rows
  · intro p hp
    have hp₂ : p ∈ production_summary_unsorted rows := hperm.subset hp
    unfold production_summary_unsorted at hp₂
    rw [List.mem_map] at hp₂
    obtain ⟨k, _, rfl⟩ := hp₂
    rfl

/-- Claim C6 counterexample: two groups with equal sums — the output with
the keys in descending order satisfies everything the sort step
guarantees, yet violates the claimed ascending-key tiebreak, so the
tiebreak is not a property of the code. -/
theorem claim_C6_counterexample :
    PandasSortValuesDesc (production_summary_unsorted [("A", 5), ("B", 5)])
      [("B", 5), ("A", 5)] ∧
    ¬ TiesAscending [("B", (5 : ℚ)), ("A", 5)] := by
  have hk : groupKeys [("A", (5 : ℚ)), ("B", 5)] = ["A", "B"] := by decide
  have hb1 : ((("A", (5 : ℚ)).1 == "A")) = true := by decide
  have hb2 : ((("B", (5 : ℚ)).1 == "A")) = false := by decide
  have hb3 : ((("A", (5 : ℚ)).1 == "B")) = false := by decide
  have hb4 : ((("B", (5 : ℚ)).1 == "B")) = true := by decide
  have hs1 : ("B" : String) ≠ "A" := by decide
  have hs2 : ("A" : String) ≠ "B" := by decide
  have hps : production_summary_unsorted [("A", (5 : ℚ)), ("B", 5)] = [("A", 5), ("B", 5)] := by
    unfold production_summary_unsorted
    rw [hk]
    norm_num [groupSum, List.filter_cons, List.filter_nil, hb1, hb2, hb3, hb4, hs1, hs2]
  refine ⟨⟨?_, ?_⟩, ?_⟩
  · rw [hps]
    exact List.Perm.swap ("A", 5) ("B", 5) []
  · unfold SortedDescBySum
    norm_num [List.pairwise_cons]
  · unfold TiesAscending
    intro hT
    have h5 := (List.pairwise_cons.mp hT).1 ("A", 5) (by simp)
    exact absurd (h5 rfl) (by decide)

/-- Claim C6 witness: a single-group dataset satisfies the sort contract
reflexively and the amended conclusions hold on it. -/
theorem claim_C6_witness :
    totalOf (production_summary_unsorted [("hydro", (100 : ℚ))])
      = ([(("hydro" : String), (100 : ℚ))].map Prod.snd).sum := by
  have hk : groupKeys [("hydro", (100 : ℚ))] = ["hydro"] := by decide
  have hps : production_summary_unsorted [("hydro", (100 : ℚ))]
      = [("hydro", groupSum [("hydro", 100)] "hydro")] := by
    unfold production_summary_unsorted
    rw [hk]
    rfl
  exact (claim_C6_amended [("hydro", 100)] _
    ⟨List.Perm.refl _, by rw [hps]; exact List.pairwise_singleton _ _⟩).2.1

/-- Claim C8: on a dataset with at least one category value, the empty
categorical selection normalizes to the singleton holding the first
available category in sorted order (the least category under the string
order), and the resolved selection is never empty. -/
theorem claim_C8 (vals : List String) (h : vals ≠ []) :
    (∃ m, normalize_selection (production_groups vals) [] = [m] ∧ m ∈ vals ∧
      ∀ v ∈ vals, strRel m v) ∧
    (∀ sel : List String, normalize_selection (production_groups vals) sel ≠ []) := by
  have hperm : List.Perm (production_groups vals) vals.dedup :=
    List.perm_insertionSort _ _
  have hsorted : List.Sorted strRel (production_groups vals) :=
    List.sorted_insertionSort strRel _
  have hne : production_groups vals ≠ [] := by
    intro h0
    exact h ((List.dedup_eq_nil vals).mp ((h0 ▸ hperm).symm.eq_nil))
  cases hg : production_groups vals with
  | nil => exact absurd hg hne
  | cons m t =>
    constructor
    · refine ⟨m, ?_, ?_, ?_⟩
      · simp [normalize_selection, hg]
      · have hm : m ∈ production_groups vals := by rw [hg]; simp
        exact List.mem_dedup.mp (hperm.subset hm)
      · intro v hv
        have hvd : v ∈ production_groups vals := hperm.symm.subset (List.mem_dedup.mpr hv)
        rw [hg] at hvd hsorted
        rcases List.mem_cons.mp hvd with rfl | hvt
        · exact lexLe_refl v.data
        · exact (List.sorted_cons.mp hsorted).1 v hvt
    · intro sel
      unfold normalize_selection
      cases hsel : sel.isEmpty with
      | true =>
        rw [if_pos rfl]
        simp
      | false =>
        rw [if_neg (by simp [hsel])]
        intro h0
        subst h0
        cases hsel

/-- Claim C8 witness: on categories {B, A, C} the empty selection
normalizes to the singleton of the least category. -/
theorem claim_C8_witness :
    ∃ m, normalize_selection (production_groups ["B", "A", "C"]) [] = [m] ∧
      m ∈ ["B", "A", "C"] ∧ ∀ v ∈ ["B", "A", "C"], strRel m v :=
  (claim_C8 ["B", "A", "C"] (by decide)).1

/-- Claim C10: every entry of the coefficient-of-variation table comes
from a column whose first-month mean is nonzero — so the divisor
`abs(mean)` is never zero — and a most-variable parameter is reported iff
at least one column has a nonzero mean. -/
theorem claim_C10 (std : List ℚ → ℚ) (cols : List (String × List ℚ)) :
    (∀ p ∈ cv_values std cols, ∃ xs, (p.1, xs) ∈ cols ∧ colMean xs ≠ 0 ∧
      |colMean xs| ≠ 0 ∧ p.2 = std xs / |colMean xs| * 100) ∧
    ((most_variable std cols).isSome = true ↔ ∃ c ∈ cols, colMean c.2 ≠ 0) := by
  have hpart : ∀ p ∈ cv_values std cols, ∃ xs, (p.1, xs) ∈ cols ∧ colMean xs ≠ 0 ∧
      |colMean xs| ≠ 0 ∧ p.2 = std xs / |colMean xs| * 100 := by
    intro p hp
    unfold cv_values at hp
    rw [List.mem_filterMap] at hp
    obtain ⟨c, hc, hsome⟩ := hp
    by_cases hmz : colMean c.2 ≠ 0
    · rw [if_pos hmz] at hsome
      have hpc := Option.some_injective _ hsome
      subst hpc
      exact ⟨c.2, by simpa using hc, hmz, abs_ne_zero.mpr hmz, rfl⟩
    · rw [if_neg hmz] at hsome
      cases hsome
  refine ⟨hpart, ?_⟩
  unfold most_variable
  cases hcv : cv_values std cols with
  | nil =>
    simp only [Option.isSome_none]
    constructor
    · intro hfalse
      cases hfalse
    · rintro ⟨c, hc, hne⟩
      have hnone := (List.filterMap_eq_nil_iff.mp hcv) c hc
      rw [if_pos hne] at hnone
      cases hnone
  | cons e rest =>
    simp only [Option.isSome_some, true_iff]
    have he : e ∈ cv_values std cols := by rw [hcv]; simp
    obtain ⟨xs, hmem, hne, _, _⟩ := hpart e he
    exact ⟨(e.1, xs), hmem, hne⟩

/-- Claim C10 witness: one column with nonzero mean produces a
most-variable report. -/
theorem claim_C10_witness :
    (most_variable (fun _ => 1) [("temp", [1, 2])]).isSome = true :=
  (claim_C10 (fun _ => 1) [("temp", [1, 2])]).2.mpr
    ⟨("temp", [1, 2]), by simp, by norm_num [colMean]⟩

end Spec2Proof
